import Mathlib

/-!
# Verification of `knadh/paginator` (Go)

A shallow embedding of `paginator.go` in Lean 4, together with theorems
checking the repository's natural-language specification against it.

Modelling conventions:
* Go `int` values are modelled as unbounded `Int` (two's-complement wrap-around
  is elided; every claim under scrutiny concerns values far from `2^63`).
* `url.Values` (a `map[string][]string`) is modelled as an association list
  with map-like access; `Encode` sorts the (unique) keys like Go does.
* Go's `int(math.Ceil(float64(a) / float64(b)))` is modelled as exact integer
  ceiling division, which agrees with the float computation on every value
  whose quotient is exactly representable (all inputs of interest).  For
  `b = 0` the Go expression converts an infinite float to `int`, which the Go
  language specification leaves implementation-dependent; the embedding makes
  that path return `none`.
-/

namespace paginator

/-- Model of Go `url.Values`: a `map[string][]string` as an association list. -/
abbrev Values := List (String × List String)

/-- Model of `url.Values.Get`: first value for the key, or `""` when absent. -/
def Values.Get (q : Values) (key : String) : String :=
  match List.find? (fun kv => kv.1 = key) q with
  | some (_, v :: _) => v
  | _ => ""

/-- Model of `url.Values.Set`: replace the key's values with the single given value. -/
def Values.Set (q : Values) (key value : String) : Values :=
  if List.any q (fun kv => kv.1 = key) then
    List.map (fun kv => if kv.1 = key then (key, [value]) else kv) q
  else
    q ++ [(key, [value])]

/-- Go `Opt` represents paginator options (verbatim fields from the source). -/
structure Opt where
  DefaultPerPage : Int
  MaxPerPage : Int
  NumPageNums : Int
  PerPageParam : String
  PageParam : String
  AllowAll : Bool
  AllowAllParam : String
  deriving DecidableEq, Repr

/-- Go `Paginator` represents a Paginator instance. -/
structure Paginator where
  o : Opt
  deriving DecidableEq, Repr

/-- Go `Set` represents pagination values for a query. -/
structure Set where
  Page : Int
  PerPage : Int
  TotalPages : Int
  Total : Int
  Params : Values
  Offset : Int
  Limit : Int
  PinFirstPage : Bool
  PinLastPage : Bool
  Pages : List Int
  pg : Paginator
  deriving DecidableEq, Repr

/-- Go `Default` returns a `paginator.Opt` with default values set. -/
def Default : Opt :=
  { DefaultPerPage := 10
    MaxPerPage := 50
    NumPageNums := 10
    PageParam := "page"
    PerPageParam := "per_page"
    AllowAll := false
    AllowAllParam := "all" }

/-- Package-level `New`: returns a new `Paginator` instance, substituting the
default `"all"` sentinel when `AllowAllParam` is empty. -/
def New (o : Opt) : Paginator :=
  ⟨if o.AllowAllParam = "" then { o with AllowAllParam := "all" } else o⟩

/-- Method `(*Paginator).New`: the core sanitisation routine returning a page `Set`. -/
def Paginator.New (p : Paginator) (page perPage : Int) : Set :=
  let perPage :=
    if perPage < 0 ∧ p.o.AllowAll then 0
    else if perPage < 1 then p.o.DefaultPerPage
    else if ¬p.o.AllowAll ∧ perPage > p.o.MaxPerPage then p.o.MaxPerPage
    else perPage
  let page := if page < 1 then 1 else page
  { Page := page
    PerPage := perPage
    TotalPages := 0
    Total := 0
    Params := []
    Offset := (page - 1) * perPage
    Limit := perPage
    PinFirstPage := false
    PinLastPage := false
    Pages := []
    pg := p }

/-- Helper for `Atoi`: the value of a non-empty all-digit run, `none` as soon
as a non-digit appears. -/
def decDigitsVal : List Char → Nat → Option Nat
  | [], acc => some acc
  | c :: rest, acc =>
      if c.isDigit then decDigitsVal rest (acc * 10 + (c.toNat - 48)) else none

/-- Model of Go `strconv.Atoi` with the error discarded, as the source does:
an optional sign followed by at least one digit parses to its value, and every
other string (empty included) yields `0`. -/
def Atoi (s : String) : Int :=
  match s.data with
  | [] => 0
  | c :: rest =>
      if c = '-' then
        match rest, decDigitsVal rest 0 with
        | _ :: _, some n => -(n : Int)
        | _, _ => 0
      else if c = '+' then
        match rest, decDigitsVal rest 0 with
        | _ :: _, some n => (n : Int)
        | _, _ => 0
      else
        match decDigitsVal (c :: rest) 0 with
        | some n => (n : Int)
        | none => 0

/-- Method `(*Paginator).NewFromURL`: parse `page`/`per_page` from query values,
treating the configured sentinel as `-1`, then delegate to `Paginator.New`. -/
def Paginator.NewFromURL (p : Paginator) (q : Values) : Set :=
  let perPage := Atoi (Values.Get q p.o.PerPageParam)
  let page := Atoi (Values.Get q p.o.PageParam)
  let perPage := if Values.Get q p.o.PerPageParam = p.o.AllowAllParam then -1 else perPage
  p.New page perPage

/-- Exact integer ceiling division `⌈a / b⌉` (for `b ≠ 0`), the model of Go's
`int(math.Ceil(float64(a) / float64(b)))`. -/
def ceilDiv (a b : Int) : Int :=
  -(Int.fdiv (-a) b)

/-- The window-bounds block of `generateNumbers` (source lines 172–191):
given `NumPageNums`, the (already clamped) current page and the page count,
the first and last page number of the window after both edge re-expansions. -/
def windowCalc (numNums page numPages : Int) : Int × Int :=
  let half := Int.tdiv numNums 2
  let first := page - half
  let last := page + half
  let first := if first < 1 then 1 else first
  let last := if last > numPages then numPages else last
  let last :=
    if numPages > numNums ∧ last < numPages ∧ page ≤ half then
      first + numNums - 1
    else last
  let first :=
    if numPages > numNums ∧ page > numPages - half then
      last - numNums
    else first
  (first, last)

/-- The inclusive ascending run `[first, …, last]` built by the final loop of
`generateNumbers` (empty when `last < first`). -/
def rangeList (first last : Int) : List Int :=
  List.map (fun i : Nat => first + (i : Int)) (List.range (last + 1 - first).toNat)

/-- Method `(*Set).generateNumbers`: fills `TotalPages`, the clamped `Page`/`Offset`,
the pin flags and `Pages`.  Returns `none` exactly on the division-by-zero
path (`PerPage = 0` with the single-page short-circuit not taken), where the
Go code converts an infinite float to `int`. -/
def generateNumbers (s : Set) : Option Set :=
  if s.Total ≤ s.PerPage then
    some { s with Offset := 0, Page := 1 }
  else if s.PerPage = 0 then
    none
  else
    let numPages := ceilDiv s.Total s.PerPage
    let page := if s.Page > numPages then numPages else s.Page
    let offset := if s.Page > numPages then (numPages - 1) * s.PerPage else s.Offset
    let fl := windowCalc s.pg.o.NumPageNums page numPages
    some { s with
      TotalPages := numPages
      Page := page
      Offset := offset
      PinFirstPage := if fl.1 ≠ 1 then true else s.PinFirstPage
      PinLastPage := if fl.2 ≠ numPages then true else s.PinLastPage
      Pages := rangeList fl.1 fl.2 }

/-- Method `(*Set).SetTotal`: store the total, then generate the page numbers. -/
def Set.SetTotal (s : Set) (t : Int) : Option Set :=
  generateNumbers { s with Total := t }

/-- Method `(*Set).SetParams`: sets additional query params for the paginated URLs. -/
def Set.SetParams (s : Set) (p : Values) : Set :=
  { s with Params := p }

/-- Uppercase hexadecimal digit for `n < 16`, as Go's URL escaper emits. -/
def hexUpper (n : Nat) : Char :=
  if n < 10 then Char.ofNat (48 + n) else Char.ofNat (55 + n)

/-- UTF-8 byte sequence of a character (Go strings are byte sequences and the
escaper works byte by byte). -/
def utf8Bytes (c : Char) : List Nat :=
  let n := c.toNat
  if n < 128 then [n]
  else if n < 2048 then [192 + n / 64, 128 + n % 64]
  else if n < 65536 then [224 + n / 4096, 128 + n / 64 % 64, 128 + n % 64]
  else [240 + n / 262144, 128 + n / 4096 % 64, 128 + n / 64 % 64, 128 + n % 64]

/-- Escaping of one byte under Go's `url.QueryEscape`: ASCII alphanumerics and
`-._~` stay, space becomes `+`, everything else becomes `%XX` (uppercase). -/
def escQueryByte (b : Nat) : List Char :=
  if (48 ≤ b ∧ b ≤ 57) ∨ (65 ≤ b ∧ b ≤ 90) ∨ (97 ≤ b ∧ b ≤ 122)
      ∨ b = 45 ∨ b = 46 ∨ b = 95 ∨ b = 126 then
    [Char.ofNat b]
  else if b = 32 then ['+']
  else ['%', hexUpper (b / 16), hexUpper (b % 16)]

/-- Model of Go `url.QueryEscape`. -/
def queryEscape (s : String) : String :=
  ⟨List.flatten (List.map (fun c => List.flatten (List.map escQueryByte (utf8Bytes c))) s.data)⟩

/-- Insertion into an ascending list of strings, for `sortStrings`. -/
def insertSorted (x : String) : List String → List String
  | [] => [x]
  | y :: ys => if x ≤ y then x :: y :: ys else y :: insertSorted x ys

/-- Model of Go `sort.Strings` (insertion sort; the keys are unique). -/
def sortStrings (l : List String) : List String :=
  List.foldr insertSorted [] l

/-- Model of `url.Values.Encode`: keys sorted, each key/value pair emitted as
`escape(k)=escape(v)`, joined by `&`. -/
def Values.Encode (q : Values) : String :=
  let keys := sortStrings (List.dedup (List.map Prod.fst q))
  let parts := List.foldr (fun k acc =>
      (match List.find? (fun kv => kv.1 = k) q with
       | some (_, vs) => List.map (fun v => queryEscape k ++ "=" ++ queryEscape v) vs
       | none => []) ++ acc) [] keys
  String.intercalate "&" parts

/-- Body of the page-number loop of `(*Set).HTML` (source lines 226–238):
append the anchor for page `p`, after overwriting the page query param. -/
def pageStep (uri pp : String) (curPage : Int) (acc : String × Values) (p : Int) :
    String × Values :=
  let c := if curPage = p then " pg-selected" else ""
  let qp := Values.Set acc.2 pp (toString p)
  (acc.1 ++ "<a class=\"pg-page" ++ c ++ "\" href=\"" ++ uri ++ "?" ++ Values.Encode qp
    ++ "\">" ++ toString p ++ "</a> ", qp)

/-- Method `(*Set).HTML`: prints pagination as HTML (a Go `nil` params map is the
empty `Values`). -/
def Set.HTML (s : Set) (uri : String) (qp : Values) : String :=
  let pp := s.pg.o.PageParam
  let start : String × Values :=
    if s.PinFirstPage then
      let qp := Values.Set qp pp "1"
      ("<a class=\"pg-page-first\" href=\"" ++ uri ++ "?" ++ Values.Encode qp
        ++ "\">1</a> <span class=\"pg-page-ellipsis-first\">...</span> ", qp)
    else ("", qp)
  let mid : String × Values := List.foldl (pageStep uri pp s.Page) start s.Pages
  if s.PinLastPage then
    let qp := Values.Set mid.2 pp (toString s.TotalPages)
    mid.1 ++ "<span class=\"pg-page-ellipsis-last\">...</span> <a class=\"pg-page-last\" href=\""
      ++ uri ++ "?" ++ Values.Encode qp ++ "\">" ++ toString s.TotalPages ++ "</a> "
  else mid.1

/-- Concatenation of a list of fragments, for the specification-level
rendering. -/
def strConcat : List String → String
  | [] => ""
  | x :: l => x ++ strConcat l

/-- Anchor fragment as described by the specification (§4.4): a link to page
`target` carrying CSS class `cls`, with the page query param overwritten. -/
def specAnchor (uri : String) (qp : Values) (pp : String) (cls : String) (target : Int) :
    String :=
  "<a class=\"" ++ cls ++ "\" href=\"" ++ uri ++ "?"
    ++ Values.Encode (Values.Set qp pp (toString target)) ++ "\">" ++ toString target ++ "</a> "

/-- Rendered output as described by the specification: pinned first page, then
the window anchors (the current page's anchor carrying `selCls` appended to
`pg-page`), then the pinned last page.  `selCls` is the claimed "selected"
class variant, leading space included. -/
def specHTML (selCls : String) (s : Set) (uri : String) (qp : Values) : String :=
  let pp := s.pg.o.PageParam
  (if s.PinFirstPage then
      specAnchor uri qp pp "pg-page-first" 1
        ++ "<span class=\"pg-page-ellipsis-first\">...</span> "
    else "")
  ++ strConcat (List.map (fun p =>
      specAnchor uri qp pp (if s.Page = p then "pg-page" ++ selCls else "pg-page") p) s.Pages)
  ++ (if s.PinLastPage then
      "<span class=\"pg-page-ellipsis-last\">...</span> "
        ++ specAnchor uri qp pp "pg-page-last" s.TotalPages
    else "")

/-- Helper used by witnesses: the number of generated page numbers (0 for the
undefined division-by-zero outcome). -/
def pagesCount (o : Option Set) : Nat :=
  match o with
  | some s => s.Pages.length
  | none => 0

/-- Default paginator instance used by concrete scenarios (the configuration
of the repository's own test). -/
def pDef : Paginator := New Default

/-! ## Basic lemmas about the embedding -/

theorem rangeList_length (f l : Int) : (rangeList f l).length = (l + 1 - f).toNat := by
  simp only [rangeList, List.length_map, List.length_range]

theorem tdiv_two_bounds (N : Int) (hN : 0 ≤ N) :
    0 ≤ Int.tdiv N 2 ∧ 2 * Int.tdiv N 2 ≤ N ∧ N ≤ 2 * Int.tdiv N 2 + 1 := by
  rw [Int.tdiv_eq_ediv hN (by norm_num)]
  omega

/-- The single-page short-circuit branch of `generateNumbers`. -/
theorem genNum_short (s : Set) (hle : s.Total ≤ s.PerPage) :
    generateNumbers s = some { s with Offset := 0, Page := 1 } := by
  unfold generateNumbers
  rw [if_pos hle]

/-- Field-by-field description of the output of the main branch of
`generateNumbers`. -/
theorem genNum_main (s s' : Set) (hlt : s.PerPage < s.Total)
    (h : generateNumbers s = some s') :
    s.PerPage ≠ 0 ∧
    s'.TotalPages = ceilDiv s.Total s.PerPage ∧
    s'.Page = (if s.Page > ceilDiv s.Total s.PerPage then ceilDiv s.Total s.PerPage
      else s.Page) ∧
    s'.Offset = (if s.Page > ceilDiv s.Total s.PerPage then
      (ceilDiv s.Total s.PerPage - 1) * s.PerPage else s.Offset) ∧
    s'.Pages = rangeList (windowCalc s.pg.o.NumPageNums s'.Page s'.TotalPages).1
      (windowCalc s.pg.o.NumPageNums s'.Page s'.TotalPages).2 ∧
    s'.PinFirstPage = (if (windowCalc s.pg.o.NumPageNums s'.Page s'.TotalPages).1 ≠ 1
      then true else s.PinFirstPage) ∧
    s'.PinLastPage = (if (windowCalc s.pg.o.NumPageNums s'.Page s'.TotalPages).2 ≠ s'.TotalPages
      then true else s.PinLastPage) ∧
    s'.Total = s.Total ∧ s'.PerPage = s.PerPage ∧ s'.pg = s.pg ∧
    s'.Params = s.Params ∧ s'.Limit = s.Limit := by
  unfold generateNumbers at h
  rw [if_neg (by omega)] at h
  by_cases h0 : s.PerPage = 0
  · rw [if_pos h0] at h
    exact absurd h (by simp)
  · rw [if_neg h0] at h
    simp only [Option.some.injEq] at h
    subst h
    exact ⟨h0, rfl, rfl, rfl, rfl, rfl, rfl, rfl, rfl, rfl, rfl, rfl⟩

/-- Width of the window produced by `windowCalc`, for a page count beyond the
configured number of page numbers. -/
theorem windowCalc_bounds (N page numPages : Int) (hN : 0 ≤ N) (hNp : N < numPages) :
    (windowCalc N page numPages).2 + 1 - (windowCalc N page numPages).1 =
      (if page ≤ Int.tdiv N 2 then N
       else if numPages - Int.tdiv N 2 < page then N + 1
       else 2 * Int.tdiv N 2 + 1) := by
  obtain ⟨hd0, hd1, hd2⟩ := tdiv_two_bounds N hN
  simp only [windowCalc]
  split_ifs <;> omega

/-- The embedding's exact ceiling division agrees with the mathematical
ceiling of the rational quotient whenever the divisor is positive. -/
theorem ceilDiv_eq_ceil (a b : Int) (hb : 0 < b) :
    ceilDiv a b = ⌈(a : ℚ) / (b : ℚ)⌉ := by
  have hbn : ((b.toNat : ℕ) : ℤ) = b := Int.toNat_of_nonneg hb.le
  have h1 : ((b.toNat : ℕ) : ℚ) = (b : ℚ) := by exact_mod_cast congrArg Int.cast hbn
  rw [ceilDiv, Int.fdiv_eq_ediv _ hb.le,
    show ((a : ℚ) / (b : ℚ)) = -(((-a : ℤ) : ℚ) / ((b.toNat : ℕ) : ℚ)) by push_cast [h1]; ring,
    Int.ceil_neg, Rat.floor_intCast_div_natCast, hbn]

/-- Paginator with the default options but `AllowAll` enabled, used by
concrete scenarios (second half of the repository's test). -/
def pAll : Paginator := New { Default with AllowAll := true }

/-! ## The claims -/

/-- C1: `Paginator.New` sanitizes with exactly the claimed precedence —
negative `per_page` under `AllowAll` becomes 0; otherwise `per_page < 1`
becomes `DefaultPerPage`; otherwise without `AllowAll` values above
`MaxPerPage` clamp to it (with `AllowAll` the clamp never applies, even to
large finite values); `page < 1` becomes 1; `Offset = (page-1)*per_page` and
`Limit = per_page` over the sanitized values. -/
theorem claim_C1 (p : Paginator) (page perPage : Int) :
    (perPage < 0 → p.o.AllowAll = true → (p.New page perPage).PerPage = 0)
  ∧ (¬(perPage < 0 ∧ p.o.AllowAll = true) → perPage < 1 →
      (p.New page perPage).PerPage = p.o.DefaultPerPage)
  ∧ (1 ≤ perPage → p.o.AllowAll = false → p.o.MaxPerPage < perPage →
      (p.New page perPage).PerPage = p.o.MaxPerPage)
  ∧ (1 ≤ perPage → p.o.AllowAll = true → (p.New page perPage).PerPage = perPage)
  ∧ (1 ≤ perPage → perPage ≤ p.o.MaxPerPage → (p.New page perPage).PerPage = perPage)
  ∧ (page < 1 → (p.New page perPage).Page = 1)
  ∧ (1 ≤ page → (p.New page perPage).Page = page)
  ∧ (p.New page perPage).Offset
      = ((p.New page perPage).Page - 1) * (p.New page perPage).PerPage
  ∧ (p.New page perPage).Limit = (p.New page perPage).PerPage := by
  simp only [Paginator.New]
  refine ⟨?_, ?_, ?_, ?_, ?_, ?_, ?_, trivial, trivial⟩ <;>
    · intros
      split_ifs <;> first | rfl | omega | tauto | simp_all

/-- Witness for C1 at the test's concrete inputs. -/
theorem claim_C1_witness :
    (pDef.New 0 500).PerPage = 50 ∧ (pAll.New 1 500).PerPage = 500
      ∧ (pDef.New 0 500).Page = 1 :=
  ⟨((claim_C1 pDef 0 500).2.2.1 (by norm_num) (by decide) (by decide)).trans (by decide),
   (claim_C1 pAll 1 500).2.2.2.1 (by norm_num) (by decide),
   (claim_C1 pDef 0 500).2.2.2.2.2.1 (by norm_num)⟩

/-- C5: with a total that fits on a single page, `SetTotal` on a
freshly-built `Set` short-circuits — `Offset` reset to 0, `Page` to 1,
`Pages` left empty, `TotalPages` still 0 and both pin flags unset. -/
theorem claim_C5 (p : Paginator) (page perPage total : Int) (s' : Set)
    (hle : total ≤ (p.New page perPage).PerPage)
    (h : (p.New page perPage).SetTotal total = some s') :
    s'.Offset = 0 ∧ s'.Page = 1 ∧ s'.Pages = [] ∧ s'.TotalPages = 0 ∧
    s'.PinFirstPage = false ∧ s'.PinLastPage = false := by
  unfold Set.SetTotal at h
  rw [genNum_short _ hle] at h
  simp only [Option.some.injEq] at h
  subst h
  exact ⟨rfl, rfl, rfl, rfl, rfl, rfl⟩

/-- Witness for C5: 3 results at 5 per page. -/
def c5res : Set := ((pDef.New 10 5).SetTotal 3).getD (pDef.New 1 1)

/-- Witness for C5 at total 3, per-page 5, requested page 10. -/
theorem claim_C5_witness :
    c5res.Offset = 0 ∧ c5res.Page = 1 ∧ c5res.Pages = [] ∧ c5res.TotalPages = 0 ∧
    c5res.PinFirstPage = false ∧ c5res.PinLastPage = false :=
  claim_C5 pDef 10 5 3 c5res (by decide) (by decide)

/-- C9: with unbounded `PerPage = 0` and a positive total, the single-page
short-circuit is not taken and `generateNumbers` reaches the `total/per_page`
division with a zero divisor (the embedding's `none`): no guard keeps
`PerPage = 0` away from that division. -/
theorem claim_C9 (s : Set) (total : Int) (h0 : s.PerPage = 0) (hpos : 0 < total) :
    s.SetTotal total = none := by
  unfold Set.SetTotal generateNumbers
  rw [if_neg (show ¬ total ≤ s.PerPage by omega), if_pos (show s.PerPage = 0 from h0)]

/-- Witness for C9: an `AllowAll` request with any positive total. -/
theorem claim_C9_witness : (pAll.New 1 (-1)).SetTotal 5 = none :=
  claim_C9 (pAll.New 1 (-1)) 5 (by decide) (by decide)

/-- C10: the pin flags are monotone under `SetTotal` — a flag once true is
never reset by a later call, whichever branch that call takes. -/
theorem claim_C10 (s : Set) (t : Int) (s' : Set) (h : s.SetTotal t = some s') :
    (s.PinFirstPage = true → s'.PinFirstPage = true) ∧
    (s.PinLastPage = true → s'.PinLastPage = true) := by
  unfold Set.SetTotal at h
  by_cases hle : t ≤ s.PerPage
  · rw [genNum_short _ hle] at h
    simp only [Option.some.injEq] at h
    subst h
    exact ⟨fun hp => hp, fun hp => hp⟩
  · have hm := genNum_main _ _ (show ({ s with Total := t } : Set).PerPage
      < ({ s with Total := t } : Set).Total by simpa using not_le.mp hle) h
    refine ⟨fun hp => ?_, fun hp => ?_⟩
    · rw [hm.2.2.2.2.2.1]
      split
      · rfl
      · exact hp
    · rw [hm.2.2.2.2.2.2.1]
      split
      · rfl
      · exact hp

/-- Intermediate for the C10 witness: a set with both pins set. -/
def c10pinned : Set := ((pDef.New 10 5).SetTotal 100).getD (pDef.New 1 1)

/-- Intermediate for the C10 witness: the pinned set after a shrunken total. -/
def c10after : Set := (c10pinned.SetTotal 3).getD (pDef.New 1 1)

/-- Witness for C10: pins survive a later single-page `SetTotal`. -/
theorem claim_C10_witness :
    c10after.PinFirstPage = true ∧ c10after.PinLastPage = true :=
  ⟨(claim_C10 c10pinned 3 c10after (by decide)).1 (by decide),
   (claim_C10 c10pinned 3 c10after (by decide)).2 (by decide)⟩

/-- A sanitized page number is always at least 1. -/
theorem New_Page_pos (p : Paginator) (page perPage : Int) :
    1 ≤ (p.New page perPage).Page := by
  simp only [Paginator.New]
  split <;> omega

/-- C3: beyond the single-page case, `SetTotal` sets `TotalPages` to the
ceiling of `total / per_page`. -/
theorem claim_C3 (s : Set) (total : Int) (s' : Set) (h1 : 1 ≤ s.PerPage)
    (h2 : s.PerPage < total) (h : s.SetTotal total = some s') :
    s'.TotalPages = ⌈(total : ℚ) / ((s.PerPage : ℤ) : ℚ)⌉ := by
  unfold Set.SetTotal at h
  have hm := genNum_main _ _ (show ({ s with Total := total } : Set).PerPage
    < ({ s with Total := total } : Set).Total by simpa using h2) h
  rw [hm.2.1]
  exact ceilDiv_eq_ceil total s.PerPage (by omega)

/-- Result of the C3 scenario `build(10, 5)` then `apply_total(100)`. -/
def c3res : Set := ((pDef.New 10 5).SetTotal 100).getD (pDef.New 1 1)

/-- Witness for C3: per-page 5, total 100 gives 20 total pages. -/
theorem claim_C3_witness :
    c3res.TotalPages = ⌈(100 : ℚ) / (((pDef.New 10 5).PerPage : ℤ) : ℚ)⌉
      ∧ c3res.TotalPages = 20 :=
  ⟨claim_C3 (pDef.New 10 5) 100 c3res (by decide) (by decide) (by decide), by decide⟩

/-- C4: beyond the single-page case, a current page beyond the computed page
count is clamped to it with the offset recomputed, and otherwise page and
offset are untouched. -/
theorem claim_C4 (s : Set) (total : Int) (s' : Set) (h2 : s.PerPage < total)
    (h : s.SetTotal total = some s') :
    (s'.TotalPages < s.Page →
      s'.Page = s'.TotalPages ∧ s'.Offset = (s'.TotalPages - 1) * s.PerPage)
  ∧ (s.Page ≤ s'.TotalPages → s'.Page = s.Page ∧ s'.Offset = s.Offset) := by
  unfold Set.SetTotal at h
  have hm := genNum_main _ _ (show ({ s with Total := total } : Set).PerPage
    < ({ s with Total := total } : Set).Total by simpa using h2) h
  dsimp only at hm
  obtain ⟨-, hTP, hPg, hOf, -⟩ := hm
  constructor
  · intro hgt
    rw [hTP] at hgt
    rw [hPg, hOf, if_pos hgt, if_pos hgt, hTP]
    exact ⟨rfl, rfl⟩
  · intro hle
    rw [hTP] at hle
    rw [hPg, hOf, if_neg (not_lt.mpr hle), if_neg (not_lt.mpr hle)]
    exact ⟨rfl, rfl⟩

/-- Result of the clamping scenario `build(50, 5)` then `apply_total(100)`. -/
def c4res : Set := ((pDef.New 50 5).SetTotal 100).getD (pDef.New 1 1)

/-- Witness for C4: requested page 50 of 20 clamps to page 20, offset 95. -/
theorem claim_C4_witness : c4res.Page = 20 ∧ c4res.Offset = 95 :=
  ⟨(((claim_C4 (pDef.New 50 5) 100 c4res (by decide) (by decide)).1
      (by decide)).1).trans (by decide),
   (((claim_C4 (pDef.New 50 5) 100 c4res (by decide) (by decide)).1
      (by decide)).2).trans (by decide)⟩

/-- Counterexample to C2 as stated: with the default configuration
(`NumPageNums = 10`), page 10 of 20 yields an 11-entry window, not 10. -/
theorem claim_C2_counterexample :
    pagesCount ((pDef.New 10 5).SetTotal 100) = 11 ∧ pDef.o.NumPageNums = 10 := by
  decide

/-- C2 as amended: when the computed page count exceeds `NumPageNums` (≥ 0),
the window has `NumPageNums` entries when the current page is in the first
half-window, `NumPageNums + 1` entries when it is within a half-window of the
end, and `2*(NumPageNums/2) + 1` entries (one more than `NumPageNums` for
even `NumPageNums`) in the middle. -/
theorem claim_C2_amended (p : Paginator) (page perPage total : Int) (s' : Set)
    (hN : 0 ≤ p.o.NumPageNums)
    (h : (p.New page perPage).SetTotal total = some s')
    (hTP : p.o.NumPageNums < s'.TotalPages) :
    (s'.Pages.length : Int) =
      (if s'.Page ≤ Int.tdiv p.o.NumPageNums 2 then p.o.NumPageNums
       else if s'.TotalPages - Int.tdiv p.o.NumPageNums 2 < s'.Page then p.o.NumPageNums + 1
       else 2 * Int.tdiv p.o.NumPageNums 2 + 1) := by
  unfold Set.SetTotal at h
  by_cases hle : total ≤ (p.New page perPage).PerPage
  · rw [genNum_short _ hle] at h
    simp only [Option.some.injEq] at h
    subst h
    simp only [Paginator.New] at hTP
    omega
  · have hm := genNum_main _ _ (by simpa using not_le.mp hle) h
    dsimp only at hm
    obtain ⟨-, hTPe, hPg, -, hPa, -⟩ := hm
    have hpg : (p.New page perPage).pg = p := rfl
    have key := windowCalc_bounds p.o.NumPageNums s'.Page s'.TotalPages hN hTP
    obtain ⟨hd0, hd1, hd2⟩ := tdiv_two_bounds p.o.NumPageNums hN
    rw [hPa, hpg, rangeList_length, key]
    split_ifs <;> omega

/-- Result of the C2-amended witness scenario `build(2, 5)`, `apply_total(100)`. -/
def c2res : Set := ((pDef.New 2 5).SetTotal 100).getD (pDef.New 1 1)

/-- Witness for the amended C2: page 2 of 20 with a 10-wide window
configuration yields exactly 10 page numbers. -/
theorem claim_C2_amended_witness : (c2res.Pages.length : Int) = 10 :=
  (claim_C2_amended pDef 2 5 100 c2res (by decide) (by decide) (by decide)).trans
    (by decide)

/-- C8: `SetTotal` is idempotent for a fixed total in the window data —
`Pages`, the two pin flags and `TotalPages` are unchanged by a second call. -/
theorem claim_C8 (s : Set) (t : Int) (s1 s2 : Set)
    (h1 : s.SetTotal t = some s1) (h2 : s1.SetTotal t = some s2) :
    s2.Pages = s1.Pages ∧ s2.PinFirstPage = s1.PinFirstPage ∧
    s2.PinLastPage = s1.PinLastPage ∧ s2.TotalPages = s1.TotalPages := by
  unfold Set.SetTotal at h1 h2
  by_cases hle : t ≤ s.PerPage
  · rw [genNum_short _ hle] at h1
    simp only [Option.some.injEq] at h1
    subst h1
    rw [genNum_short _ hle] at h2
    simp only [Option.some.injEq] at h2
    subst h2
    exact ⟨rfl, rfl, rfl, rfl⟩
  · have hlt : s.PerPage < t := not_le.mp hle
    have hm1 := genNum_main _ _ (by simpa using hlt) h1
    dsimp only at hm1
    obtain ⟨-, hTP1, hPg1, -, hPa1, hPF1, hPL1, hTot1, hPP1, hpg1, -⟩ := hm1
    have hm2 := genNum_main _ _ (by dsimp only; rw [hPP1]; exact hlt) h2
    dsimp only at hm2
    obtain ⟨-, hTP2, hPg2, -, hPa2, hPF2, hPL2, -⟩ := hm2
    rw [hPP1] at hTP2 hPg2
    have hTPeq : s2.TotalPages = s1.TotalPages := by rw [hTP2, hTP1]
    have hple : s1.Page ≤ ceilDiv t s.PerPage := by
      rw [hPg1]; split <;> omega
    have hPgeq : s2.Page = s1.Page := by
      rw [hPg2, if_neg (not_lt.mpr hple)]
    rw [hpg1] at hPa2 hPF2 hPL2
    refine ⟨?_, ?_, ?_, hTPeq⟩
    · rw [hPa2, hPgeq, hTPeq, ← hPa1]
    · rw [hPF2, hPgeq, hTPeq]
      split_ifs with hc
      · rw [hPF1, if_pos hc]
      · rfl
    · rw [hPL2, hPgeq, hTPeq]
      split_ifs with hc
      · rw [hPL1, if_pos hc]
      · rfl

/-- First application of `SetTotal 100` for the C8 witness. -/
def c8one : Set := ((pDef.New 10 5).SetTotal 100).getD (pDef.New 1 1)

/-- Second application of `SetTotal 100` for the C8 witness. -/
def c8two : Set := (c8one.SetTotal 100).getD (pDef.New 1 1)

/-- Witness for C8 at per-page 5, total 100. -/
theorem claim_C8_witness :
    c8two.Pages = c8one.Pages ∧ c8two.PinFirstPage = c8one.PinFirstPage ∧
    c8two.PinLastPage = c8one.PinLastPage ∧ c8two.TotalPages = c8one.TotalPages :=
  claim_C8 (pDef.New 10 5) 100 c8one c8two (by decide) (by decide)

/-- Go integer syntax: an optional sign followed by at least one decimal
digit.  Everything else (the empty string included) fails `strconv.Atoi`. -/
def isGoInt (s : String) : Bool :=
  match s.data with
  | [] => false
  | c :: rest =>
      if c = '-' ∨ c = '+' then !rest.isEmpty && rest.all Char.isDigit
      else (c :: rest).all Char.isDigit

/-- A digit run containing a non-digit has no value. -/
theorem decDigitsVal_eq_none (cs : List Char) (acc : Nat)
    (h : cs.all Char.isDigit = false) : decDigitsVal cs acc = none := by
  induction cs generalizing acc with
  | nil => simp at h
  | cons c rest ih =>
    unfold decDigitsVal
    by_cases hc : c.isDigit
    · rw [if_pos hc]
      apply ih
      simpa [hc] using h
    · rw [if_neg hc]

/-- Strings outside Go integer syntax parse to 0 under the discarded-error
`Atoi`. -/
theorem Atoi_eq_zero_of_not_numeric (s : String) (h : isGoInt s = false) :
    Atoi s = 0 := by
  obtain ⟨cs⟩ := s
  unfold Atoi isGoInt at *
  cases cs with
  | nil => rfl
  | cons c rest =>
    dsimp only at h ⊢
    by_cases hsign : c = '-' ∨ c = '+'
    · rw [if_pos hsign] at h
      cases rest with
      | nil =>
        rcases hsign with hs | hs <;> subst hs <;> rfl
      | cons d ds =>
        simp only [List.isEmpty_cons, Bool.not_false, Bool.true_and] at h
        have hnone := decDigitsVal_eq_none (d :: ds) 0 h
        rcases hsign with hs | hs <;> subst hs
        · rw [if_pos rfl, hnone]
        · rw [if_neg (by decide), if_pos rfl, hnone]
    · rw [if_neg hsign] at h
      push_neg at hsign
      rw [if_neg hsign.1, if_neg hsign.2, decDigitsVal_eq_none (c :: rest) 0 h]

/-- C7: `NewFromURL` never fails — the sentinel per-page value is converted
to `-1` before delegating to `New` (hence `PerPage = 0` under `AllowAll`),
and non-numeric or missing values parse as 0 and are then clamped by `New`,
never rejected. -/
theorem claim_C7 (p : Paginator) (q : Values) :
    (Values.Get q p.o.PerPageParam = p.o.AllowAllParam →
      p.NewFromURL q = p.New (Atoi (Values.Get q p.o.PageParam)) (-1))
  ∧ (Values.Get q p.o.PerPageParam = p.o.AllowAllParam → p.o.AllowAll = true →
      (p.NewFromURL q).PerPage = 0)
  ∧ (Values.Get q p.o.PerPageParam ≠ p.o.AllowAllParam →
      isGoInt (Values.Get q p.o.PageParam) = false →
      isGoInt (Values.Get q p.o.PerPageParam) = false →
      p.NewFromURL q = p.New 0 0) := by
  refine ⟨fun hs => ?_, fun hs hA => ?_, fun hs hpg hpp => ?_⟩
  · simp only [Paginator.NewFromURL]
    rw [if_pos hs]
  · simp only [Paginator.NewFromURL]
    rw [if_pos hs]
    simp [Paginator.New, hA]
  · simp only [Paginator.NewFromURL]
    rw [if_neg hs, Atoi_eq_zero_of_not_numeric _ hpg, Atoi_eq_zero_of_not_numeric _ hpp]

/-- Query input for the C7 witness: the unbounded sentinel. -/
def c7qAll : Values := [("per_page", ["all"]), ("page", ["abc"])]

/-- Query input for the C7 witness: non-numeric page values. -/
def c7qBad : Values := [("page", ["x1"]), ("per_page", ["2x"])]

/-- Witness for C7: `per_page=all` under `AllowAll` gives `PerPage = 0`, and
non-numeric values fall back to the defaults via `New 0 0`. -/
theorem claim_C7_witness :
    (pAll.NewFromURL c7qAll).PerPage = 0 ∧ pDef.NewFromURL c7qBad = pDef.New 0 0 :=
  ⟨(claim_C7 pAll c7qAll).2.1 (by decide) (by decide),
   (claim_C7 pDef c7qBad).2.2 (by decide) (by decide) (by decide)⟩

/-- Setting the same key twice keeps only the last value. -/
theorem values_set_set (q : Values) (k a b : String) :
    Values.Set (Values.Set q k a) k b = Values.Set q k b := by
  by_cases hq : List.any q (fun kv => kv.1 = k)
  · have e1 : Values.Set q k a
        = List.map (fun kv => if kv.1 = k then (k, [a]) else kv) q := by
      unfold Values.Set
      rw [if_pos hq]
    have h2 : List.any (List.map (fun kv => if kv.1 = k then (k, [a]) else kv) q)
        (fun kv => kv.1 = k) = true := by
      rw [List.any_map]
      obtain ⟨kv, hmem, hkv⟩ := List.any_eq_true.mp hq
      refine List.any_eq_true.mpr ⟨kv, hmem, ?_⟩
      simp only [Function.comp]
      simp only [decide_eq_true_eq] at hkv
      simp [hkv]
    rw [e1]
    unfold Values.Set
    rw [if_pos h2, if_pos hq, List.map_map]
    refine List.map_congr_left (fun kv _ => ?_)
    by_cases hk : kv.1 = k <;> simp [Function.comp, hk]
  · have hq' : List.any q (fun kv => kv.1 = k) = false := Bool.eq_false_iff.mpr hq
    have e1 : Values.Set q k a = q ++ [(k, [a])] := by
      unfold Values.Set
      rw [if_neg hq]
    have h2 : List.any (q ++ [(k, [a])]) (fun kv => kv.1 = k) = true := by
      rw [List.any_append]
      simp
    rw [e1]
    unfold Values.Set
    rw [if_pos h2, if_neg hq, List.map_append]
    have h3 : List.map (fun kv => if kv.1 = k then (k, [b]) else kv) q = q := by
      have hall := List.any_eq_false.mp hq'
      conv_rhs => rw [← List.map_id q]
      refine List.map_congr_left (fun kv hm => ?_)
      have := hall kv hm
      simp only [decide_eq_true_eq] at this
      simp [this]
    rw [h3]
    simp

/-- One loop iteration of `HTML` emits exactly the specification's anchor. -/
theorem pageStep_eq (uri pp : String) (cur : Int) (acc : String) (q0 : Values) (p : Int) :
    pageStep uri pp cur (acc, q0) p
      = (acc ++ specAnchor uri q0 pp
            (if cur = p then "pg-page" ++ " pg-selected" else "pg-page") p,
         Values.Set q0 pp (toString p)) := by
  unfold pageStep specAnchor
  by_cases hc : cur = p
  · rw [if_pos hc, if_pos hc]
    simp only [String.append_assoc]
    rfl
  · rw [if_neg hc, if_neg hc]
    simp only [String.append_assoc, String.append_empty, String.empty_append]
    rfl

/-- The page-number loop of `HTML` renders the specification's sequence of
anchors, and leaves the params container equivalent to the input one as far
as further overwrites of the page param are concerned. -/
theorem pageStep_fold (uri pp : String) (cur : Int) (ps : List Int) (acc : String)
    (q0 q : Values) (hq : ∀ v, Values.Set q0 pp v = Values.Set q pp v) :
    (List.foldl (pageStep uri pp cur) (acc, q0) ps).1
      = acc ++ strConcat (List.map (fun p =>
          specAnchor uri q pp (if cur = p then "pg-page" ++ " pg-selected" else "pg-page") p) ps)
  ∧ ∀ v, Values.Set (List.foldl (pageStep uri pp cur) (acc, q0) ps).2 pp v
      = Values.Set q pp v := by
  induction ps generalizing acc q0 with
  | nil =>
    refine ⟨?_, hq⟩
    simp [strConcat]
  | cons p rest ih =>
    have hq' : ∀ v, Values.Set (Values.Set q0 pp (toString p)) pp v = Values.Set q pp v :=
      fun v => (values_set_set q0 pp (toString p) v).trans (hq v)
    have hA : specAnchor uri q0 pp (if cur = p then "pg-page" ++ " pg-selected" else "pg-page") p
        = specAnchor uri q pp (if cur = p then "pg-page" ++ " pg-selected" else "pg-page") p := by
      unfold specAnchor
      rw [hq (toString p)]
    have hfold := ih (acc ++ specAnchor uri q0 pp
      (if cur = p then "pg-page" ++ " pg-selected" else "pg-page") p)
      (Values.Set q0 pp (toString p)) hq'
    rw [List.foldl_cons, pageStep_eq]
    refine ⟨?_, hfold.2⟩
    rw [hfold.1, hA, List.map_cons]
    show _ ++ _ = acc ++ (_ ++ _)
    rw [String.append_assoc]

/-- C6 amended: `HTML` is exactly the specification's concatenation — pinned
first anchor and ellipsis, window anchors in ascending order, pinned ellipsis
and last anchor — except that the selected page's anchor carries the class
`pg-selected` appended to `pg-page`, not `pg-page-selected`. -/
theorem claim_C6_amended (s : Set) (uri : String) (qp : Values) :
    Set.HTML s uri qp = specHTML " pg-selected" s uri qp := by
  simp only [Set.HTML, specHTML]
  split_ifs with hl hf
  · rw [(pageStep_fold uri s.pg.o.PageParam s.Page s.Pages _ _ qp
      (fun v => values_set_set qp s.pg.o.PageParam "1" v)).1,
      (pageStep_fold uri s.pg.o.PageParam s.Page s.Pages _ _ qp
      (fun v => values_set_set qp s.pg.o.PageParam "1" v)).2 (toString s.TotalPages)]
    unfold specAnchor
    simp only [String.append_assoc]
    rfl
  · rw [(pageStep_fold uri s.pg.o.PageParam s.Page s.Pages _ _ qp (fun v => rfl)).1,
      (pageStep_fold uri s.pg.o.PageParam s.Page s.Pages _ _ qp (fun v => rfl)).2
        (toString s.TotalPages)]
    unfold specAnchor
    simp only [String.append_assoc, String.empty_append]
    rfl
  · rw [(pageStep_fold uri s.pg.o.PageParam s.Page s.Pages _ _ qp
      (fun v => values_set_set qp s.pg.o.PageParam "1" v)).1]
    unfold specAnchor
    simp only [String.append_assoc, String.append_empty]
    rfl
  · rw [(pageStep_fold uri s.pg.o.PageParam s.Page s.Pages _ _ qp (fun v => rfl)).1]
    simp only [String.append_assoc, String.empty_append, String.append_empty]

/-- Concrete set for the C6 counterexample: page 2 of 10, window `[1..7]`,
last page pinned. -/
def c6set : Set := ((pDef.New 2 5).SetTotal 50).getD (pDef.New 1 1)

/-- Counterexample to C6 as stated: the selected anchor's extra class is
`pg-selected`, not `pg-page-selected`, so the claimed rendering differs from
`HTML` already at this concrete input. -/
theorem claim_C6_counterexample :
    Set.HTML c6set "/x" [] ≠ specHTML " pg-page-selected" c6set "/x" [] := by
  decide

end paginator
